import Mathlib

/-!
Shallow embedding of the `elk` evaluation-metrics engine
(`src/elk/metrics/eval.py`) and of the layer orchestrator
(`src/elk/run.py`), together with theorems settling the frozen claims
about them.

Tensors are embedded as (nested) lists of rationals: a `(n,)` tensor is
a `List ℚ`, a `(n, v)` tensor a `List (List ℚ)` and a `(n, v, k)` tensor
a `List (List (List ℚ))`.  Integer label tensors use `ℕ` entries.  The
Python functions in `eval.py` are duck-typed over the tensor rank (the
same function is applied to 2-D and 3-D logits on different call paths),
so each such function is embedded once per rank that actually occurs,
with the rank recorded in the Lean name (`calc_auroc2` receives 2-D
logits, `calc_auroc3` receives 3-D logits, and so on).  Fallible code
(Python exceptions: list `IndexError`, `ValueError` on an unknown
ensembling mode, failed shape asserts) is embedded in `Option`.
-/

/-- A tensor argument of rank 1, 2 or 3, used to record exactly which
tensor is handed to an external estimator. -/
inductive Tens where
  | t1 : List ℚ → Tens
  | t2 : List (List ℚ) → Tens
  | t3 : List (List (List ℚ)) → Tens
deriving DecidableEq

/-- Modelled from the spec: the result of the external bootstrap
accuracy estimator `accuracy_ci` (the module `elk/metrics/accuracy.py`
is not part of the sources); the spec describes it as a
point-low-high shaped record. -/
structure AccuracyResult where
  point : ℚ
  low : ℚ
  high : ℚ
deriving DecidableEq

/-- Modelled from the spec: the result of the external bootstrap AUROC
estimator `roc_auc_ci` (the module `elk/metrics/roc_auc.py` is not part
of the sources); the spec describes it as a point-low-high shaped
record. -/
structure RocAucResult where
  point : ℚ
  low : ℚ
  high : ℚ
deriving DecidableEq

/-- Modelled from the spec: the result of the external streaming
calibration-error estimator (the module `elk/metrics/calibration.py` is
not part of the sources); the code reads exactly one field, `ece`. -/
structure CalibrationEstimate where
  ece : ℚ
deriving DecidableEq

/-- Modelled from the spec: the external collaborators consumed by the
metrics engine, namely the two bootstrap confidence-interval estimators,
the streaming calibration-error estimator (fed the two flattened
tensors, then asked for its estimate), and `torch.sigmoid`.  The spec
treats all of them as interfaces only, so the whole development is
parametrised over them. -/
structure Externals where
  accuracy_ci : Tens → Tens → AccuracyResult
  roc_auc_ci : Tens → Tens → RocAucResult
  calibration_update_compute : List ℚ → List ℚ → CalibrationEstimate
  sigmoid : ℚ → ℚ

/-- The result of evaluating a classifier (`EvalResult` in
`eval.py`). -/
structure EvalResult where
  accuracy : AccuracyResult
  cal_accuracy : Option AccuracyResult
  calibration : Option CalibrationEstimate
  roc_auc : RocAucResult
deriving DecidableEq

/-- Cast a list of integer labels to a rank-1 rational tensor. -/
def castL (xs : List ℕ) : List ℚ :=
  xs.map (fun x => (x : ℚ))

/-- Cast a 2-D integer label tensor to rationals. -/
def castLL (xs : List (List ℕ)) : List (List ℚ) :=
  xs.map castL

/-- Elementwise mean of a list of rationals (`Tensor.mean` on the
flattened tensor). -/
def listMean (xs : List ℚ) : ℚ :=
  xs.sum / xs.length

/-- Elementwise sum of two vectors (`torch` broadcasting addition of
same-shaped rank-1 tensors). -/
def vecAdd (a b : List ℚ) : List ℚ :=
  List.zipWith (· + ·) a b

/-- Scalar multiplication of a vector. -/
def vecSmul (c : ℚ) (a : List ℚ) : List ℚ :=
  a.map (fun x => c * x)

/-- Mean of a `(v, k)` tensor over its first axis, giving a `(k,)`
tensor; used to embed `Tensor.mean(dim=1)` rowwise.  `torch` produces a
NaN tensor for `v = 0`; all call sites have `v ≥ 1`. -/
def rowMean (vs : List (List ℚ)) : List ℚ :=
  match vs with
  | [] => []
  | x :: xs => vecSmul (1 / ((xs.length : ℚ) + 1)) (xs.foldl vecAdd x)

/-- `Tensor.mean(dim=1)` on a `(n, v, k)` tensor, giving `(n, k)`. -/
def meanDim1 (t : List (List (List ℚ))) : List (List ℚ) :=
  t.map rowMean

/-- Elementwise sum of two matrices. -/
def matAdd (a b : List (List ℚ)) : List (List ℚ) :=
  List.zipWith vecAdd a b

/-- Scalar multiplication of a matrix. -/
def matSmul (c : ℚ) (a : List (List ℚ)) : List (List ℚ) :=
  a.map (vecSmul c)

/-- Sum of a stack of equally-shaped matrices. -/
def sumMats (ms : List (List (List ℚ))) : List (List ℚ) :=
  match ms with
  | [] => []
  | x :: xs => xs.foldl matAdd x

/-- `torch.stack` on a non-empty list of `(n, k)` tensors followed by
`torch.mean(-, dim=0)`: the depth-wise average.  `torch.stack` raises on
an empty tensor list, hence the `Option`. -/
def stackMean (ms : List (List (List ℚ))) : Option (List (List ℚ)) :=
  match ms with
  | [] => none
  | x :: xs => some (matSmul (1 / ((xs.length : ℚ) + 1)) (xs.foldl matAdd x))

/-- Index of the first maximal entry of a vector (`Tensor.argmax(dim=-1)`
rowwise; `torch.argmax` returns the first occurrence on ties). -/
def argmaxIdx (xs : List ℚ) : ℕ :=
  (xs.foldl
    (fun acc x =>
      if acc.2.1 < x then (acc.2.2, x, acc.2.2 + 1)
      else (acc.1, acc.2.1, acc.2.2 + 1))
    (0, xs.headD 0, 0)).1

/-- One-hot row for one label (`to_one_hot` innermost step: `new_zeros`
followed by `scatter_` of a `1` at the label position; labels are
assumed in `[0, k)` as at every call site). -/
def oneHotVec (lab : ℕ) (k : ℕ) : List ℚ :=
  (List.range k).map (fun c => if c = lab then 1 else 0)

/-- `to_one_hot(labels, n_classes)` from `eval.py` for a rank-1 label
tensor `(n,)`, giving `(n, k)`. -/
def to_one_hot (labels : List ℕ) (n_classes : ℕ) : List (List ℚ) :=
  labels.map (fun lab => oneHotVec lab n_classes)

/-- `to_one_hot(labels, n_classes)` from `eval.py` for a rank-2 label
tensor `(n, v)`, giving `(n, v, k)`. -/
def to_one_hot2 (labels : List (List ℕ)) (n_classes : ℕ) :
    List (List (List ℚ)) :=
  labels.map (fun row => row.map (fun lab => oneHotVec lab n_classes))

/-- `Tensor.flatten(start_dim=1)` on a `(n, v, k)` tensor: every
example's `(v, k)` block is flattened into a single row of length
`v * k`, keeping the first (example) axis. -/
def flatten_from1 (t : List (List (List ℚ))) : List (List ℚ) :=
  t.map List.flatten

/-- `Tensor.quantile(q)` with the default linear interpolation: sort the
flattened values, take position `q * (m - 1)` and interpolate linearly
between the two neighbouring order statistics. -/
def torchQuantile (xs : List ℚ) (q : ℚ) : ℚ :=
  let s := xs.insertionSort (· ≤ ·)
  let p : ℚ := q * ((s.length : ℚ) - 1)
  let i : ℕ := p.floor.toNat
  let a := s.getD i 0
  let b := s.getD (i + 1) a
  a + (p - (p.floor : ℚ)) * (b - a)

/-- The shape `(n, v, k)` of a rank-3 tensor embedded as a nested list,
if the nesting is rectangular with `n ≥ 1` and `v ≥ 1` (a `torch`
tensor always carries its shape; the list embedding can only read it
off non-degenerate data, which all claims provide). -/
def shape3 (t : List (List (List ℚ))) : Option (ℕ × ℕ × ℕ) :=
  match t with
  | [] => none
  | r :: _ =>
    match r with
    | [] => none
    | c :: _ =>
      if t.all (fun row => row.length = r.length ∧
          row.all (fun cell => cell.length = c.length)) then
        some (t.length, r.length, c.length)
      else
        none

/-- `EvalResult.to_dict` from `eval.py`: the four per-field dictionaries
are built with `dataclasses.asdict` (which lists fields in declaration
order) and merged as `{**auroc_dict, **cal_acc_dict, **acc_dict,
**cal_dict}`; a Python `dict` merge with pairwise-distinct keys lists
the pairs in exactly that order, which the association list makes
explicit. -/
def EvalResult.to_dict (r : EvalResult) (pfx : String) : List (String × ℚ) :=
  let acc_dict := [(pfx ++ "acc_point", r.accuracy.point),
    (pfx ++ "acc_low", r.accuracy.low), (pfx ++ "acc_high", r.accuracy.high)]
  let cal_acc_dict :=
    match r.cal_accuracy with
    | some c => [(pfx ++ "cal_acc_point", c.point),
        (pfx ++ "cal_acc_low", c.low), (pfx ++ "cal_acc_high", c.high)]
    | none => []
  let cal_dict :=
    match r.calibration with
    | some c => [(pfx ++ "ece", c.ece)]
    | none => []
  let auroc_dict := [(pfx ++ "auroc_point", r.roc_auc.point),
    (pfx ++ "auroc_low", r.roc_auc.low), (pfx ++ "auroc_high", r.roc_auc.high)]
  auroc_dict ++ cal_acc_dict ++ acc_dict ++ cal_dict

/-- The keys contributed by the AUROC field of an `EvalResult`. -/
def aurocKeys (pfx : String) : List String :=
  [pfx ++ "auroc_point", pfx ++ "auroc_low", pfx ++ "auroc_high"]

/-- The keys contributed by the calibrated-accuracy field, when it is
present. -/
def calAccKeys (pfx : String) : List String :=
  [pfx ++ "cal_acc_point", pfx ++ "cal_acc_low", pfx ++ "cal_acc_high"]

/-- The keys contributed by the accuracy field of an `EvalResult`. -/
def accKeys (pfx : String) : List String :=
  [pfx ++ "acc_point", pfx ++ "acc_low", pfx ++ "acc_high"]

/-- The key contributed by the calibration field, when it is present. -/
def eceKeys (pfx : String) : List String :=
  [pfx ++ "ece"]

/-- `calc_auroc` from `eval.py` for 1-D ground truth `(n,)` and 2-D
logits `(n, k)` (the shapes on the `full`-ensembling call path).  On the
`"none"` branch, `flatten(1)` is the identity on the 2-D one-hot tensor
and on the 2-D logits.  An unknown ensembling mode raises `ValueError`
in the source, embedded as `none`. -/
def calc_auroc2 (ext : Externals) (y_logits : List (List ℚ))
    (y_true : List ℕ) (ensembling : String) (num_classes : ℕ) :
    Option RocAucResult :=
  if ensembling = "none" then
    some (ext.roc_auc_ci (Tens.t2 (to_one_hot y_true num_classes))
      (Tens.t2 y_logits))
  else if ensembling = "partial" ∨ ensembling = "full" then
    if num_classes = 2 then
      some (ext.roc_auc_ci (Tens.t1 (castL y_true))
        (Tens.t1 (y_logits.map (fun r => r.getD 1 0 - r.getD 0 0))))
    else
      some (ext.roc_auc_ci (Tens.t2 (to_one_hot y_true num_classes))
        (Tens.t2 y_logits))
  else
    none

/-- `calc_auroc` from `eval.py` for 2-D ground truth `(n, v)` and 3-D
logits `(n, v, k)` (the shapes on the `"none"` and `"partial"` call
paths).  The `.long()` cast on the one-hot tensor does not change its
values. -/
def calc_auroc3 (ext : Externals) (y_logits : List (List (List ℚ)))
    (y_true : List (List ℕ)) (ensembling : String) (num_classes : ℕ) :
    Option RocAucResult :=
  if ensembling = "none" then
    some (ext.roc_auc_ci (Tens.t2 (flatten_from1 (to_one_hot2 y_true num_classes)))
      (Tens.t2 (flatten_from1 y_logits)))
  else if ensembling = "partial" ∨ ensembling = "full" then
    if num_classes = 2 then
      some (ext.roc_auc_ci (Tens.t2 (castLL y_true))
        (Tens.t2 (y_logits.map (fun m => m.map (fun r => r.getD 1 0 - r.getD 0 0)))))
    else
      some (ext.roc_auc_ci (Tens.t3 (to_one_hot2 y_true num_classes))
        (Tens.t3 y_logits))
  else
    none

/-- `calc_calibrated_accuracies` from `eval.py` for 1-D inputs: the
decision threshold is the `q`-quantile of `pos_probs` where `q` is the
empirical positive rate `y_true.float().mean()`; predictions are the
strict comparisons `pos_probs.gt(cal_thresh)` cast to integers, handed
to the external accuracy estimator. -/
def calc_calibrated_accuracies (ext : Externals) (y_true : List ℕ)
    (pos_probs : List ℚ) : AccuracyResult :=
  let cal_thresh := torchQuantile pos_probs (listMean (castL y_true))
  let cal_preds := pos_probs.map (fun p => if cal_thresh < p then (1 : ℚ) else 0)
  ext.accuracy_ci (Tens.t1 (castL y_true)) (Tens.t1 cal_preds)

/-- `calc_calibrated_accuracies` from `eval.py` for 2-D inputs
`(n, v)`: `Tensor.quantile` and `Tensor.mean` reduce over all elements
of the flattened tensors, `gt` is elementwise. -/
def calc_calibrated_accuracies2 (ext : Externals) (y_true : List (List ℕ))
    (pos_probs : List (List ℚ)) : AccuracyResult :=
  let cal_thresh := torchQuantile pos_probs.flatten (listMean (castLL y_true).flatten)
  let cal_preds := pos_probs.map (fun row =>
    row.map (fun p => if cal_thresh < p then (1 : ℚ) else 0))
  ext.accuracy_ci (Tens.t2 (castLL y_true)) (Tens.t2 cal_preds)

/-- `calc_calibrated_errors` from `eval.py` for 1-D inputs: feed the
flattened ground truth and positive probabilities to the external
streaming calibration-error estimator and return its estimate. -/
def calc_calibrated_errors (ext : Externals) (y_true : List ℕ)
    (pos_probs : List ℚ) : CalibrationEstimate :=
  ext.calibration_update_compute (castL y_true) pos_probs

/-- `calc_calibrated_errors` from `eval.py` for 2-D inputs. -/
def calc_calibrated_errors2 (ext : Externals) (y_true : List (List ℕ))
    (pos_probs : List (List ℚ)) : CalibrationEstimate :=
  ext.calibration_update_compute (castLL y_true).flatten pos_probs.flatten

/-- `calc_accuracies` from `eval.py` for 2-D logits `(n, k)`: predicted
class is the arg-max over the class axis, handed with the ground truth
to the external accuracy estimator. -/
def calc_accuracies2 (ext : Externals) (y_logits : List (List ℚ))
    (y_true : List ℕ) : AccuracyResult :=
  let y_pred := y_logits.map (fun r => (argmaxIdx r : ℚ))
  ext.accuracy_ci (Tens.t1 (castL y_true)) (Tens.t1 y_pred)

/-- `calc_accuracies` from `eval.py` for 3-D logits `(n, v, k)`. -/
def calc_accuracies3 (ext : Externals) (y_logits : List (List (List ℚ)))
    (y_true : List (List ℕ)) : AccuracyResult :=
  let y_pred := y_logits.map (fun m => m.map (fun r => (argmaxIdx r : ℚ)))
  ext.accuracy_ci (Tens.t2 (castLL y_true)) (Tens.t2 y_pred)

/-- `calc_eval_results` from `eval.py` for 1-D ground truth and 2-D
logits (the `full`-ensembling call path, also used by
`layer_ensembling`): accuracy, then `pos_probs` via the sigmoid of the
pooled logit difference, then — only for two classes — calibrated
accuracy and calibration error, then AUROC.  The only failure path is
`calc_auroc` on an unknown ensembling mode. -/
def calc_eval_results2 (ext : Externals) (y_true : List ℕ)
    (y_logits : List (List ℚ)) (ensembling : String) (num_classes : ℕ) :
    Option EvalResult := do
  let acc := calc_accuracies2 ext y_logits y_true
  let pos_probs := y_logits.map (fun r => ext.sigmoid (r.getD 1 0 - r.getD 0 0))
  let cal_acc := if num_classes = 2 then
      some (calc_calibrated_accuracies ext y_true pos_probs)
    else none
  let cal_err := if num_classes = 2 then
      some (calc_calibrated_errors ext y_true pos_probs)
    else none
  let auroc ← calc_auroc2 ext y_logits y_true ensembling num_classes
  pure ⟨acc, cal_acc, cal_err, auroc⟩

/-- `calc_eval_results` from `eval.py` for 2-D ground truth and 3-D
logits (the `"none"` and `"partial"` call paths). -/
def calc_eval_results3 (ext : Externals) (y_true : List (List ℕ))
    (y_logits : List (List (List ℚ))) (ensembling : String)
    (num_classes : ℕ) : Option EvalResult := do
  let acc := calc_accuracies3 ext y_logits y_true
  let pos_probs := y_logits.map (fun m =>
    m.map (fun r => ext.sigmoid (r.getD 1 0 - r.getD 0 0)))
  let cal_acc := if num_classes = 2 then
      some (calc_calibrated_accuracies2 ext y_true pos_probs)
    else none
  let cal_err := if num_classes = 2 then
      some (calc_calibrated_errors2 ext y_true pos_probs)
    else none
  let auroc ← calc_auroc3 ext y_logits y_true ensembling num_classes
  pure ⟨acc, cal_acc, cal_err, auroc⟩

/-- `evaluate_preds` from `eval.py`: read off `(n, v, k)` from the
logits, assert that the ground truth has shape `(n,)`, average the
variant axis away for `full` ensembling or broadcast the ground truth to
`(n, v)` otherwise (`einops.repeat(y_true, "n -> n v")`), and delegate
to `calc_eval_results`.  A failed shape assert raises, embedded as
`none`. -/
def evaluate_preds (ext : Externals) (y_true : List ℕ)
    (y_logits : List (List (List ℚ))) (ensembling : String) :
    Option EvalResult := do
  let (n, num_variants, num_classes) ← shape3 y_logits
  if y_true.length = n then
    if ensembling = "full" then
      calc_eval_results2 ext y_true (meanDim1 y_logits) ensembling num_classes
    else
      calc_eval_results3 ext
        (y_true.map (fun t => List.replicate num_variants t))
        y_logits ensembling num_classes
  else
    none

/-- Modelled from the spec: the per-layer, per-dataset bundle
`LayerOutput` (its defining module is not part of the sources;
`eval.py` reads it as a mapping with the keys `val_gt` — the validation
ground truth `(n,)` — and `val_credences` — the detached validation
credences `(n, v, k)`). -/
structure LayerOutputRec where
  val_gt : List ℕ
  val_credences : List (List (List ℚ))
deriving DecidableEq

/-- `layer_ensembling` from `eval.py`.  Each element of `layer_outputs`
is the per-dataset list produced for one layer; the code reads only its
first entry (`layer_output[0]`), an `IndexError` on an empty list being
embedded as `none`.  The device move `.to(device)` does not change
values.  `num_classes` is `layer_outputs[0][0]["val_credences"].shape[2]`;
the list embedding reads it off the data, which requires `n ≥ 1` and
`v ≥ 1`.  After halving, `y_trues[2]` is a Python list index and raises
for a suffix shorter than 3. -/
def layer_ensembling (ext : Externals)
    (layer_outputs : List (List LayerOutputRec)) : Option EvalResult := do
  let pairs ← layer_outputs.mapM (fun layer_output => do
    let e ← layer_output.head?
    pure (meanDim1 e.val_credences, e.val_gt))
  let y_logits_means := pairs.map Prod.fst
  let y_trues := pairs.map Prod.snd
  let lo0 ← layer_outputs.head?
  let e0 ← lo0.head?
  let m0 ← e0.val_credences.head?
  let r0 ← m0.head?
  let num_classes := r0.length
  let middle_index := y_trues.length / 2
  let y_trues2 := y_trues.drop middle_index
  let y_logits2 := y_logits_means.drop middle_index
  let y_layer_logits_means ← stackMean y_logits2
  let y_true ← y_trues2.get? 2
  calc_eval_results2 ext y_true y_layer_logits_means "full" num_classes

/-- One result row collected by `Run.apply_to_layers` in `run.py`: the
`pd.Series` produced by the per-layer worker, of which the flush step
reads only the `layer` column (`sort_values(by="layer")`). -/
structure SweepRow where
  layer : ℕ
  cells : List (String × ℚ)
deriving DecidableEq

/-- One event observed by the collection loop of `Run.apply_to_layers`:
either the completion iterator yields a finished per-layer row, or it
raises (a worker failure, a keyboard interrupt, ...).  With
`imap_unordered` the completion order is arbitrary, so the loop is
embedded as a function of the event sequence it observes. -/
inductive SweepEvent where
  | done : SweepRow → SweepEvent
  | fail : String → SweepEvent
deriving DecidableEq

/-- The `for row in mapper(func, layers)` loop of `Run.apply_to_layers`:
rows are appended to `row_buf` until the iterator is exhausted or
raises; an exception ends the loop at once, leaving exactly the rows
yielded before it in the buffer. -/
def collectRows : List SweepEvent → List SweepRow × Option String
  | [] => ([], none)
  | SweepEvent.done r :: es =>
    let p := collectRows es
    (r :: p.1, p.2)
  | SweepEvent.fail m :: _ => ([], some m)

/-- The flush step's `sort_values(by="layer")`, ascending by the layer
column. -/
def sortByLayer (rs : List SweepRow) : List SweepRow :=
  rs.insertionSort (fun a b => a.layer ≤ b.layer)

/-- `Run.apply_to_layers` from `run.py`, lines 125-137: collect rows
until the iterator finishes or raises, then — in the `finally` block, so
also on the exception path — build a data frame from the buffered rows,
sort it by the `layer` column and write it to `eval.csv`; a pending
exception propagates afterwards.  Returns the persisted table and the
propagated exception.  `pd.DataFrame([]).sort_values(by="layer")`
raises `KeyError` (an empty frame has no `layer` column), so no table is
persisted when no row was collected, matching the spec's "no partial
table is produced if the failure occurs before any layer completes". -/
def apply_to_layers_model (events : List SweepEvent) :
    Option (List SweepRow) × Option String :=
  let p := collectRows events
  (if p.1.isEmpty then none else some (sortByLayer p.1), p.2)

/-- A dynamically typed Python value manipulated by `Run.concatenate`:
an integer or a list. -/
inductive PyVal where
  | int : ℤ → PyVal
  | list : List PyVal → PyVal

/-- Python `a[i]`: only lists are subscriptable, and the index must be
in range; anything else raises (`TypeError` or `IndexError`), embedded
as `none`. -/
def pyIndex (a : PyVal) (i : ℕ) : Option PyVal :=
  match a with
  | PyVal.int _ => none
  | PyVal.list xs => xs.get? i

/-- Python `a + b`: defined for two integers and for two lists;
an integer plus a list raises `TypeError`, embedded as `none`. -/
def pyAdd (a b : PyVal) : Option PyVal :=
  match a, b with
  | PyVal.int x, PyVal.int y => some (PyVal.int (x + y))
  | PyVal.list xs, PyVal.list ys => some (PyVal.list (xs ++ ys))
  | _, _ => none

/-- Python `a - b`: defined for two integers only. -/
def pySub (a b : PyVal) : Option PyVal :=
  match a, b with
  | PyVal.int x, PyVal.int y => some (PyVal.int (x - y))
  | _, _ => none

/-- One iteration of the loop body of `Run.concatenate`:
`layers[layer] = layers[layer] + [layers[layer][0] - offset]`. -/
def concatenateStep (offset : ℕ) (layers : List PyVal) (layer : ℕ) :
    Option (List PyVal) := do
  let cur ← layers.get? layer
  let first ← pyIndex cur 0
  let tail ← pySub first (PyVal.int (offset : ℤ))
  let updated ← pyAdd cur (PyVal.list [tail])
  pure (layers.set layer updated)

/-- `Run.concatenate` from `run.py`, lines 96-102: for every `layer` in
`range(offset, len(layers))` rebind `layers[layer]` to
`layers[layer] + [layers[layer][0] - offset]`.  The first exception
raised by a loop body aborts the call, embedded as `none`. -/
def concatenate (offset : ℕ) (layers : List PyVal) : Option (List PyVal) :=
  (List.range' offset (layers.length - offset)).foldlM (concatenateStep offset) layers

/-- The call site in `Run.apply_to_layers`, lines 119-122: the layer
list resolved from the dataset is transformed by `concatenate` exactly
when a positive `concatenated_layer_offset` is configured. -/
def resolve_layers (offset : ℕ) (layers : List PyVal) : Option (List PyVal) :=
  if 0 < offset then concatenate offset layers else some layers

/-- A concrete instantiation of the external estimators, used to
evaluate the embedding on closed inputs: every interval collapses to a
constant and the sigmoid is the identity. -/
def extOne : Externals :=
  ⟨fun _ _ => ⟨1, 1, 1⟩, fun _ _ => ⟨1, 1, 1⟩, fun _ _ => ⟨1⟩, fun x => x⟩

/-- The number of rows of a rank-2 tensor argument (and the length of a
rank-1 one); a probe used to tell differently shaped estimator inputs
apart. -/
def tensRows (t : Tens) : ℚ :=
  match t with
  | Tens.t1 xs => xs.length
  | Tens.t2 xs => xs.length
  | Tens.t3 xs => xs.length

/-- A concrete instantiation of the external estimators whose AUROC
result records the number of rows of the label tensor it was fed. -/
def extProbe : Externals :=
  ⟨fun _ _ => ⟨1, 1, 1⟩, fun la _ => ⟨tensRows la, 0, 0⟩, fun _ _ => ⟨1⟩, fun x => x⟩

/-- The `EvalResult` that `calc_eval_results` assembles for two classes
when every external estimator is the constant `extOne`. -/
def evalResultOne : EvalResult :=
  ⟨⟨1, 1, 1⟩, some ⟨1, 1, 1⟩, some ⟨1⟩, ⟨1, 1, 1⟩⟩

/-- A concrete per-layer output used to evaluate the embedding on
closed inputs: two examples, two variants, two classes. -/
def loA : LayerOutputRec :=
  ⟨[0, 1], [[[1, 2], [3, 4]], [[5, 6], [7, 8]]]⟩

/-- C6: for every `EvalResult`, the key order of the flat mapping
produced by `to_dict` is all AUROC fields first, then all
calibrated-accuracy fields, then all accuracy fields, then the
calibration field last, each key prefixed with the given prefix and the
metric name. -/
theorem to_dict_key_order (r : EvalResult) (pfx : String) :
    (r.to_dict pfx).map Prod.fst =
      aurocKeys pfx ++
        (match r.cal_accuracy with
          | some _ => calAccKeys pfx
          | none => []) ++
        accKeys pfx ++
        (match r.calibration with
          | some _ => eceKeys pfx
          | none => []) := by
  rcases r with ⟨a, ca, cal, ro⟩
  cases ca <;> cases cal <;> rfl

/-- Unfolding lemma for `calc_eval_results2`: the result is the AUROC
computation mapped into the assembled record. -/
theorem calc_eval_results2_eq (ext : Externals) (y : List ℕ)
    (l : List (List ℚ)) (mode : String) (k : ℕ) :
    calc_eval_results2 ext y l mode k =
      (calc_auroc2 ext l y mode k).map (fun auroc =>
        ⟨calc_accuracies2 ext l y,
          if k = 2 then
            some (calc_calibrated_accuracies ext y
              (l.map (fun r => ext.sigmoid (r.getD 1 0 - r.getD 0 0))))
          else none,
          if k = 2 then
            some (calc_calibrated_errors ext y
              (l.map (fun r => ext.sigmoid (r.getD 1 0 - r.getD 0 0))))
          else none,
          auroc⟩) := by
  cases hc : calc_auroc2 ext l y mode k <;>
    simp [calc_eval_results2, hc]

/-- Unfolding lemma for `calc_eval_results3`. -/
theorem calc_eval_results3_eq (ext : Externals) (y : List (List ℕ))
    (l : List (List (List ℚ))) (mode : String) (k : ℕ) :
    calc_eval_results3 ext y l mode k =
      (calc_auroc3 ext l y mode k).map (fun auroc =>
        ⟨calc_accuracies3 ext l y,
          if k = 2 then
            some (calc_calibrated_accuracies2 ext y
              (l.map (fun m => m.map (fun r => ext.sigmoid (r.getD 1 0 - r.getD 0 0)))))
          else none,
          if k = 2 then
            some (calc_calibrated_errors2 ext y
              (l.map (fun m => m.map (fun r => ext.sigmoid (r.getD 1 0 - r.getD 0 0)))))
          else none,
          auroc⟩) := by
  cases hc : calc_auroc3 ext l y mode k <;>
    simp [calc_eval_results3, hc]

/-- C5: in every `EvalResult` produced by `calc_eval_results` (on either
of its two call-path shapes), the `cal_accuracy` and `calibration`
fields are present exactly when the number of classes is 2; for any
other class count both are `none`, and the serialized key list omits the
calibrated-accuracy and calibration keys entirely. -/
theorem cal_fields_iff_binary (ext : Externals) (pfx : String) :
    (∀ (y : List ℕ) (l : List (List ℚ)) (mode : String) (k : ℕ)
      (r : EvalResult), calc_eval_results2 ext y l mode k = some r →
      (r.cal_accuracy.isSome ↔ k = 2) ∧ (r.calibration.isSome ↔ k = 2) ∧
        (r.to_dict pfx).map Prod.fst =
          aurocKeys pfx ++ (if k = 2 then calAccKeys pfx else []) ++
            accKeys pfx ++ (if k = 2 then eceKeys pfx else [])) ∧
    (∀ (y : List (List ℕ)) (l : List (List (List ℚ))) (mode : String)
      (k : ℕ) (r : EvalResult), calc_eval_results3 ext y l mode k = some r →
      (r.cal_accuracy.isSome ↔ k = 2) ∧ (r.calibration.isSome ↔ k = 2) ∧
        (r.to_dict pfx).map Prod.fst =
          aurocKeys pfx ++ (if k = 2 then calAccKeys pfx else []) ++
            accKeys pfx ++ (if k = 2 then eceKeys pfx else [])) := by
  constructor
  · intro y l mode k r h
    rw [calc_eval_results2_eq] at h
    rcases h2 : calc_auroc2 ext l y mode k with _ | a <;> rw [h2] at h
    · exact absurd h (by simp)
    · simp only [Option.map_some'] at h
      cases h
      by_cases hk : k = 2 <;>
        simp [hk, EvalResult.to_dict, aurocKeys, calAccKeys, accKeys, eceKeys]
  · intro y l mode k r h
    rw [calc_eval_results3_eq] at h
    rcases h2 : calc_auroc3 ext l y mode k with _ | a <;> rw [h2] at h
    · exact absurd h (by simp)
    · simp only [Option.map_some'] at h
      cases h
      by_cases hk : k = 2 <;>
        simp [hk, EvalResult.to_dict, aurocKeys, calAccKeys, accKeys, eceKeys]

/-- Witness for C5 at a concrete binary input. -/
theorem cal_fields_iff_binary_witness :
    calc_eval_results2 extOne [0, 1] [[1, 2], [3, 4]] "full" 2 =
        some evalResultOne ∧
      (evalResultOne.cal_accuracy.isSome ↔ 2 = 2) ∧
      (evalResultOne.calibration.isSome ↔ 2 = 2) ∧
      (evalResultOne.to_dict "p_").map Prod.fst =
        aurocKeys "p_" ++ (if 2 = 2 then calAccKeys "p_" else []) ++
          accKeys "p_" ++ (if 2 = 2 then eceKeys "p_" else []) :=
  ⟨by decide,
    (cal_fields_iff_binary extOne "p_").1 [0, 1] [[1, 2], [3, 4]] "full" 2
      evalResultOne (by decide)⟩

/-- C7: for ensembling mode `partial` or `full` with two classes,
`calc_auroc` pools the two class logits into the single signed score
`logit[1] - logit[0]` and hands that score together with the raw binary
ground truth to the external AUROC estimator; on both call-path shapes
it never one-hot encodes the ground truth in this binary case. -/
theorem calc_auroc_binary_pooled (ext : Externals) (y1 : List ℕ)
    (l2 : List (List ℚ)) (y2 : List (List ℕ)) (l3 : List (List (List ℚ))) :
    calc_auroc2 ext l2 y1 "partial" 2 =
        some (ext.roc_auc_ci (Tens.t1 (castL y1))
          (Tens.t1 (l2.map (fun r => r.getD 1 0 - r.getD 0 0)))) ∧
      calc_auroc2 ext l2 y1 "full" 2 =
        some (ext.roc_auc_ci (Tens.t1 (castL y1))
          (Tens.t1 (l2.map (fun r => r.getD 1 0 - r.getD 0 0)))) ∧
      calc_auroc3 ext l3 y2 "partial" 2 =
        some (ext.roc_auc_ci (Tens.t2 (castLL y2))
          (Tens.t2 (l3.map (fun m => m.map (fun r => r.getD 1 0 - r.getD 0 0))))) ∧
      calc_auroc3 ext l3 y2 "full" 2 =
        some (ext.roc_auc_ci (Tens.t2 (castLL y2))
          (Tens.t2 (l3.map (fun m => m.map (fun r => r.getD 1 0 - r.getD 0 0))))) := by
  exact ⟨rfl, rfl, rfl, rfl⟩

/-- C4: `calc_calibrated_accuracies` derives its decision threshold as
the `q`-quantile of `pos_probs` with `q` the empirical positive rate
`mean(y_true)`, and scores the strict comparisons against that
threshold with the external accuracy estimator.  The second conjunct
evaluates the quantile at an interpolated position, and the third shows
the calibrated threshold producing predictions that a fixed `0.5`
threshold would not (positive rate `3/4` on uniformly spread
probabilities). -/
theorem calibrated_accuracy_quantile_threshold :
    (∀ (ext : Externals) (y_true : List ℕ) (pos_probs : List ℚ),
      calc_calibrated_accuracies ext y_true pos_probs =
        ext.accuracy_ci (Tens.t1 (castL y_true))
          (Tens.t1 (pos_probs.map (fun p =>
            if torchQuantile pos_probs (listMean (castL y_true)) < p
            then (1 : ℚ) else 0)))) ∧
      torchQuantile [1/10, 2/10, 3/10, 4/10] (3/4) = 13/40 ∧
      ([1/10, 2/10, 3/10, 4/10] : List ℚ).map (fun p =>
          if torchQuantile [1/10, 2/10, 3/10, 4/10]
              (listMean (castL [1, 1, 1, 0])) < p then (1 : ℚ) else 0) ≠
        ([1/10, 2/10, 3/10, 4/10] : List ℚ).map (fun p =>
          if (1 : ℚ) / 2 < p then (1 : ℚ) else 0) :=
  ⟨fun ext y_true pos_probs => rfl,
    by
      have h : Rat.floor ((9 : ℚ) / 4) = 2 := by
        rw [Rat.floor_def']
        norm_num
      norm_num [torchQuantile, List.insertionSort, List.orderedInsert,
        List.getD, h, show Int.toNat 2 = 2 from rfl],
    by
      have h : Rat.floor ((9 : ℚ) / 4) = 2 := by
        rw [Rat.floor_def']
        norm_num
      norm_num [torchQuantile, List.insertionSort, List.orderedInsert,
        List.getD, listMean, castL, h, show Int.toNat 2 = 2 from rfl]⟩

/-- C3 counterexample: the claim that `calc_auroc` in mode `none`
flattens all axes *except the last one* — i.e. feeds the estimator the
`(n*v, k)` reshaping of the one-hot ground truth and of the logits — is
false.  At ground truth `[[0, 1], [1, 0]]` (shape `(2, 2)`) and logits
`[[[1, 2], [3, 4]], [[5, 6], [7, 8]]]` (shape `(2, 2, 2)`), the code
feeds tensors of shape `(2, 4)` while the claim predicts shape
`(4, 2)`; an estimator probe recording the number of rows of its label
argument returns 2 on the code path and 4 on the claimed one. -/
theorem calc_auroc_none_flatten_claim_counterexample :
    calc_auroc3 extProbe [[[1, 2], [3, 4]], [[5, 6], [7, 8]]]
        [[0, 1], [1, 0]] "none" 2 ≠
      some (extProbe.roc_auc_ci
        (Tens.t2 (to_one_hot2 [[0, 1], [1, 0]] 2).flatten)
        (Tens.t2 ([[[1, 2], [3, 4]], [[5, 6], [7, 8]]] :
          List (List (List ℚ))).flatten)) := by
  decide

/-- C3 amended: for mode `none`, `calc_auroc` one-hot encodes `y_true`
to shape `(…, k)`, flattens all axes except the *first* one — merging
the variant and class axes of each example into one row of length
`v * k` — and computes AUROC against the correspondingly flattened
logits: the example axis is kept separate while the variant and class
axes are collapsed together. -/
theorem calc_auroc_none_flattens_from_dim1 (ext : Externals)
    (y_true : List (List ℕ)) (y_logits : List (List (List ℚ))) (k : ℕ) :
    calc_auroc3 ext y_logits y_true "none" k =
      some (ext.roc_auc_ci
        (Tens.t2 ((to_one_hot2 y_true k).map List.flatten))
        (Tens.t2 (y_logits.map List.flatten))) :=
  rfl

/-- The collection loop on a prefix of completions followed by a
failure: exactly the prefix rows end up in the buffer and the failure is
recorded, whatever events would have followed. -/
theorem collectRows_prefix_fail (rows : List SweepRow) (msg : String)
    (post : List SweepEvent) :
    collectRows (rows.map SweepEvent.done ++ SweepEvent.fail msg :: post) =
      (rows, some msg) := by
  induction rows with
  | nil => rfl
  | cons r rs ih => simp [collectRows, ih]

/-- C1: if the collection loop of `Run.apply_to_layers` observes some
completed per-layer rows and then an exception, the flush still runs
before the exception propagates: the persisted table exists, holds
exactly the rows completed before the failure (whatever completions
would have followed are not in it), and is sorted by layer index. -/
theorem flush_on_failure_partial_rows (rows : List SweepRow) (msg : String)
    (post : List SweepEvent) (hne : rows ≠ []) :
    (apply_to_layers_model
        (rows.map SweepEvent.done ++ SweepEvent.fail msg :: post)).2 =
        some msg ∧
      ((apply_to_layers_model
        (rows.map SweepEvent.done ++ SweepEvent.fail msg :: post)).1).isSome ∧
      ∀ t, (apply_to_layers_model
          (rows.map SweepEvent.done ++ SweepEvent.fail msg :: post)).1 =
          some t →
        t.Perm rows ∧ (t.map SweepRow.layer).Sorted (· ≤ ·) := by
  have hc := collectRows_prefix_fail rows msg post
  have hemp : rows.isEmpty = false := by
    cases rows with
    | nil => exact absurd rfl hne
    | cons r rs => rfl
  refine ⟨by simp [apply_to_layers_model, hc], by simp [apply_to_layers_model, hc, hemp], ?_⟩
  intro t ht
  rw [apply_to_layers_model, hc] at ht
  simp only [hemp] at ht
  rw [if_neg (by simp)] at ht
  cases ht
  constructor
  · exact List.perm_insertionSort _ rows
  · letI : IsTotal SweepRow (fun a b => a.layer ≤ b.layer) :=
      ⟨fun a b => Nat.le_total a.layer b.layer⟩
    letI : IsTrans SweepRow (fun a b => a.layer ≤ b.layer) :=
      ⟨fun a b c => Nat.le_trans⟩
    exact (List.sorted_insertionSort _ rows).map _ (fun a b h => h)

/-- Witness for C1: two layers complete out of order, then the worker
for another layer raises; the persisted table is exactly those two rows,
sorted by layer. -/
theorem flush_on_failure_partial_rows_witness :
    (apply_to_layers_model
        (([⟨2, []⟩, ⟨0, []⟩] : List SweepRow).map SweepEvent.done ++
          SweepEvent.fail "boom" :: [])).2 = some "boom" ∧
      ((apply_to_layers_model
        (([⟨2, []⟩, ⟨0, []⟩] : List SweepRow).map SweepEvent.done ++
          SweepEvent.fail "boom" :: [])).1).isSome ∧
      ∀ t, (apply_to_layers_model
          (([⟨2, []⟩, ⟨0, []⟩] : List SweepRow).map SweepEvent.done ++
            SweepEvent.fail "boom" :: [])).1 = some t →
        t.Perm [⟨2, []⟩, ⟨0, []⟩] ∧ (t.map SweepRow.layer).Sorted (· ≤ ·) :=
  flush_on_failure_partial_rows [⟨2, []⟩, ⟨0, []⟩] "boom" [] (by decide)

/-- C8: with the layer list that `get_layers` actually produces — a
`list[int]` of layer indices, as `run.py` itself annotates — and any
configured positive `concatenated_layer_offset` smaller than the number
of layers, the orchestrator's `concatenate` transform raises `TypeError`
on its first loop iteration (`layers[layer][0]` subscripts an `int`, and
`layers[layer] + [...]` adds a list to an `int`), so no unit of work is
ever extended with an earlier layer's hidden state. -/
theorem concatenate_typeerror_on_int_layers (offset : ℕ) (zs : List ℤ)
    (h1 : 0 < offset) (h2 : offset < zs.length) :
    resolve_layers offset (zs.map PyVal.int) = none := by
  rw [resolve_layers, if_pos h1]
  obtain ⟨m, hm⟩ : ∃ m, zs.length - offset = m + 1 :=
    ⟨zs.length - offset - 1, by omega⟩
  rw [concatenate, List.length_map, hm, List.range'_succ, List.foldlM_cons]
  have hget : (zs.map PyVal.int).get? offset =
      some (PyVal.int (zs.get ⟨offset, h2⟩)) := by
    rw [List.get?_eq_getElem?, List.getElem?_map, List.getElem?_eq_getElem h2]
    rfl
  have hstep : concatenateStep offset (zs.map PyVal.int) offset = none := by
    rw [concatenateStep, hget]
    rfl
  rw [hstep]
  rfl

/-- Witness for C8 at the concrete failing input: offset 1 over layer
indices `[0, 1, 2]`. -/
theorem concatenate_typeerror_on_int_layers_witness :
    0 < 1 ∧ 1 < ([0, 1, 2] : List ℤ).length ∧
      resolve_layers 1 (([0, 1, 2] : List ℤ).map PyVal.int) = none :=
  ⟨by decide, by decide,
    concatenate_typeerror_on_int_layers 1 [0, 1, 2] (by decide) (by decide)⟩

/-- Adding a vector to `c` times itself scales it by `c + 1`. -/
theorem vecAdd_smul_self (c : ℚ) (r : List ℚ) :
    vecAdd (r.map (fun x => c * x)) r = r.map (fun x => (c + 1) * x) := by
  induction r with
  | nil => rfl
  | cons a l ih =>
    simp only [List.map_cons, vecAdd, List.zipWith_cons_cons]
    rw [show List.zipWith (· + ·) (l.map (fun x => c * x)) l =
        vecAdd (l.map (fun x => c * x)) l from rfl, ih]
    congr 1
    ring

/-- Folding vector addition of `m` further copies of `r` onto `c • r`
yields `(c + m) • r`. -/
theorem foldl_vecAdd_replicate (m : ℕ) (c : ℚ) (r : List ℚ) :
    List.foldl vecAdd (r.map (fun x => c * x)) (List.replicate m r) =
      r.map (fun x => (c + m) * x) := by
  induction m generalizing c with
  | zero => simp
  | succ m ih =>
    rw [List.replicate_succ, List.foldl_cons, vecAdd_smul_self, ih (c + 1)]
    have : (fun x : ℚ => (c + 1 + m) * x) = fun x : ℚ => (c + (m + 1 : ℕ)) * x := by
      funext x
      push_cast
      ring
    rw [this]

/-- Averaging `v ≥ 1` identical variant rows returns the row unchanged:
`Tensor.mean(dim=1)` over identical copies is the identity. -/
theorem rowMean_replicate (v : ℕ) (hv : 1 ≤ v) (r : List ℚ) :
    rowMean (List.replicate v r) = r := by
  obtain ⟨m, rfl⟩ : ∃ m, v = m + 1 := ⟨v - 1, by omega⟩
  rw [List.replicate_succ]
  have hfold : List.foldl vecAdd r (List.replicate m r) =
      r.map (fun x => (1 + (m : ℚ)) * x) := by
    have h0 := foldl_vecAdd_replicate m 1 r
    rwa [show r.map (fun x : ℚ => 1 * x) = r by simp] at h0
  rw [rowMean, List.length_replicate, hfold, vecSmul, List.map_map]
  have hne : ((m : ℚ) + 1) ≠ 0 := by positivity
  have hf : ((fun x : ℚ => 1 / ((m : ℚ) + 1) * x) ∘ fun x : ℚ => (1 + (m : ℚ)) * x) =
      fun x : ℚ => x := by
    funext x
    simp only [Function.comp]
    field_simp
    ring
  rw [hf, List.map_id']

/-- Characterization of a well-shaped `(n, 1, k)` tensor built from
singleton variant rows. -/
theorem shape3_map_singleton (rows : List (List ℚ)) (n k : ℕ)
    (hs : shape3 (rows.map (fun r => [r])) = some (n, 1, k)) :
    n = rows.length ∧ rows ≠ [] ∧ ∀ r ∈ rows, r.length = k := by
  cases rows with
  | nil => exact absurd hs (by simp [shape3])
  | cons r0 rest =>
    rw [shape3.eq_def] at hs
    simp only [List.map_cons] at hs
    by_cases hall : ((r0 :: rest).map (fun r => [r])).all
        (fun row => row.length = 1 ∧ row.all (fun cell => cell.length = r0.length))
    · rw [if_pos (by simpa using hall)] at hs
      simp only [Option.some_inj, Prod.mk.injEq] at hs
      obtain ⟨hn, -, hk⟩ := hs
      refine ⟨by simpa using hn.symm, by simp, ?_⟩
      intro r hr
      have hmem : [r] ∈ (r0 :: rest).map (fun r => [r]) := by
        simp only [List.mem_map]
        exact ⟨r, hr, rfl⟩
      have := List.all_eq_true.mp hall [r] hmem
      simp only [List.all_cons, List.all_nil, Bool.and_true, decide_eq_true_eq] at this
      rw [← hk]
      exact this.2
    · rw [if_neg (by simpa using hall)] at hs
      exact absurd hs (by simp)

/-- The `v`-fold replication of well-shaped singleton variant rows is a
well-shaped `(n, v, k)` tensor. -/
theorem shape3_map_replicate (rows : List (List ℚ)) (v k : ℕ)
    (hv : 1 ≤ v) (hne : rows ≠ []) (hall : ∀ r ∈ rows, r.length = k) :
    shape3 (rows.map (fun r => List.replicate v r)) =
      some (rows.length, v, k) := by
  cases rows with
  | nil => exact absurd rfl hne
  | cons r0 rest =>
    obtain ⟨m, rfl⟩ : ∃ m, v = m + 1 := ⟨v - 1, by omega⟩
    rw [shape3.eq_def]
    simp only [List.map_cons, List.replicate_succ]
    rw [if_pos]
    · have hr0 : r0.length = k := hall r0 (by simp)
      simp [hr0]
    · rw [List.all_eq_true]
      intro row hrow
      simp only [List.mem_cons, List.mem_map] at hrow
      have hrow' : ∃ r, (r ∈ r0 :: rest) ∧ List.replicate (m + 1) r = row := by
        rcases hrow with h | ⟨r, hr, hrr⟩
        · exact ⟨r0, by simp, by rw [List.replicate_succ, h]⟩
        · exact ⟨r, by simp [hr], hrr⟩
      obtain ⟨r, hr, rfl⟩ := hrow'
      have hrk : r.length = k := hall r hr
      have hr0 : r0.length = k := hall r0 (by simp)
      simp only [List.replicate_succ, List.length_cons, List.length_replicate,
        List.all_eq_true, decide_eq_true_eq]
      constructor
      · simp
      · intro cell hcell
        have hc : cell = r := by
          rcases List.mem_cons.mp hcell with h | h
          · exact h
          · exact List.eq_of_mem_replicate h
        rw [hc, hrk, hr0]

/-- `Tensor.mean(dim=1)` over `v ≥ 1` identical copies of each
example's row recovers the `(n, k)` tensor of rows. -/
theorem meanDim1_map_replicate (v : ℕ) (hv : 1 ≤ v) (rows : List (List ℚ)) :
    meanDim1 (rows.map (fun r => List.replicate v r)) = rows := by
  rw [meanDim1, List.map_map]
  have h : ∀ r ∈ rows, (rowMean ∘ fun r => List.replicate v r) r = r :=
    fun r _ => rowMean_replicate v hv r
  rw [List.map_congr_left h, List.map_id']

/-- C9: repeating a `(n, 1, k)` logits tensor into `v ≥ 1` identical
variants per example leaves `evaluate_preds` under `full` ensembling
unchanged — averaging identical variants is a no-op. -/
theorem full_ensembling_identical_variants_noop (ext : Externals)
    (y_true : List ℕ) (rows : List (List ℚ)) (n v k : ℕ)
    (hs : shape3 (rows.map (fun r => [r])) = some (n, 1, k)) (hv : 1 ≤ v) :
    evaluate_preds ext y_true (rows.map (fun r => List.replicate v r)) "full" =
      evaluate_preds ext y_true (rows.map (fun r => [r])) "full" := by
  obtain ⟨hn, hne, hall⟩ := shape3_map_singleton rows n k hs
  have hs2 := shape3_map_replicate rows v k hv hne hall
  have hone : (fun r : List ℚ => [r]) = fun r : List ℚ => List.replicate 1 r := rfl
  rw [evaluate_preds, evaluate_preds, hs, hs2, hone,
    meanDim1_map_replicate v hv, meanDim1_map_replicate 1 (by omega)]
  subst hn
  rfl

/-- Witness for C9: the perfectly separated binary scenario with three
identical variants. -/
theorem full_ensembling_identical_variants_noop_witness :
    shape3 ((([[2, -2], [-2, 2], [2, -2], [-2, 2]] : List (List ℚ)).map
        (fun r => [r]))) = some (4, 1, 2) ∧
      1 ≤ 3 ∧
      evaluate_preds extOne [0, 1, 0, 1]
          (([[2, -2], [-2, 2], [2, -2], [-2, 2]] : List (List ℚ)).map
            (fun r => List.replicate 3 r)) "full" =
        evaluate_preds extOne [0, 1, 0, 1]
          (([[2, -2], [-2, 2], [2, -2], [-2, 2]] : List (List ℚ)).map
            (fun r => [r])) "full" :=
  ⟨by decide, by decide,
    full_ensembling_identical_variants_noop extOne [0, 1, 0, 1]
      [[2, -2], [-2, 2], [2, -2], [-2, 2]] 4 3 2 (by decide) (by decide)⟩

/-- A successful `mapM` over `Option` returns as many results as
inputs. -/
theorem option_mapM_length {α β : Type} (f : α → Option β) :
    ∀ (l : List α) (r : List β), l.mapM f = some r → r.length = l.length := by
  intro l
  induction l with
  | nil =>
    intro r h
    simp only [List.mapM_nil, pure, Option.some_inj] at h
    simp [← h]
  | cons a t ih =>
    intro r h
    rw [List.mapM_cons] at h
    rcases ha : f a with _ | b <;> rw [ha] at h
    · exact absurd h (by simp)
    · rcases ht : t.mapM f with _ | rs <;> rw [ht] at h
      · exact absurd h (by simp)
      · simp only [Option.bind_eq_bind, Option.some_bind, pure,
          Option.some_inj] at h
        rw [← h]
        simp [ih rs ht]

/-- The collection loop of `layer_ensembling` over per-layer output
lists with a known head: it succeeds and pairs each layer's
variant-averaged credences with its ground truth. -/
theorem mapM_pairs_zipWith (outs : List LayerOutputRec)
    (tails : List (List LayerOutputRec)) (hlen : tails.length = outs.length) :
    List.mapM (fun layer_output => do
        let e ← layer_output.head?
        pure (meanDim1 e.val_credences, e.val_gt))
      (List.zipWith (· :: ·) outs tails) =
      some (outs.map (fun o => (meanDim1 o.val_credences, o.val_gt))) := by
  induction outs generalizing tails with
  | nil => rfl
  | cons o os ih =>
    cases tails with
    | nil => simp at hlen
    | cons t ts =>
      simp only [List.zipWith_cons_cons, List.mapM_cons]
      rw [ih ts (by simpa using hlen)]
      rfl

/-- `torch.stack` followed by the depth mean, on a non-empty stack, is
the scaled matrix sum. -/
theorem stackMean_eq (ms : List (List (List ℚ))) (h : ms ≠ []) :
    stackMean ms = some (matSmul (1 / (ms.length : ℚ)) (sumMats ms)) := by
  cases ms with
  | nil => exact absurd rfl h
  | cons x xs =>
    simp only [stackMean, sumMats, List.length_cons]
    congr 2
    push_cast
    ring

/-- Unfolded behaviour of `layer_ensembling` on a sweep of at least five
layers whose per-layer output lists have known heads: it scores, with
`calc_eval_results` in `full` mode, the depth average of the
variant-averaged credences of the later half of the sweep, against the
ground truth of the third element of the truncated sequence, with the
class count read off the first layer's credences. -/
theorem layer_ensembling_eq (ext : Externals) (outs : List LayerOutputRec)
    (tails : List (List LayerOutputRec)) (hlen : tails.length = outs.length)
    (h5 : 5 ≤ outs.length) (o0 : LayerOutputRec) (m0 : List (List ℚ))
    (r0 : List ℚ) (ho0 : outs.head? = some o0)
    (hm0 : o0.val_credences.head? = some m0) (hr0 : m0.head? = some r0) :
    layer_ensembling ext (List.zipWith (· :: ·) outs tails) =
      calc_eval_results2 ext
        (((outs.drop (outs.length / 2)).getD 2 ⟨[], []⟩).val_gt)
        (matSmul (1 / ((outs.length - outs.length / 2 : ℕ) : ℚ))
          (sumMats ((outs.drop (outs.length / 2)).map
            (fun o => meanDim1 o.val_credences))))
        "full" r0.length := by
  obtain ⟨os, rfl⟩ : ∃ os, outs = o0 :: os := by
    cases outs with
    | nil => exact absurd ho0 (by simp)
    | cons a os =>
      have ha : a = o0 := by simpa using ho0
      exact ⟨os, by rw [ha]⟩
  obtain ⟨t0, ts, rfl⟩ : ∃ t0 ts, tails = t0 :: ts := by
    cases tails with
    | nil => simp at hlen
    | cons t0 ts => exact ⟨t0, ts, rfl⟩
  have hmapM := mapM_pairs_zipWith (o0 :: os) (t0 :: ts) hlen
  have hsuffne : ((o0 :: os).drop ((o0 :: os).length / 2)).map
      (fun o => meanDim1 o.val_credences) ≠ [] := by
    have : 0 < (((o0 :: os).drop ((o0 :: os).length / 2)).map
        (fun o => meanDim1 o.val_credences)).length := by
      simp only [List.length_map, List.length_drop]
      omega
    intro hcon
    rw [hcon] at this
    simp at this
  have hstack := stackMean_eq _ hsuffne
  have hlt : 2 < ((o0 :: os).drop ((o0 :: os).length / 2)).length := by
    simp only [List.length_drop]
    omega
  rw [layer_ensembling, hmapM]
  simp only [Option.bind_eq_bind, Option.some_bind, List.zipWith_cons_cons,
    List.head?_cons, List.map_map, hm0, hr0]
  simp only [Function.comp_def, List.length_map, ← List.map_drop]
  rw [hstack]
  simp only [Option.some_bind]
  have hget : ((List.drop ((o0 :: os).length / 2) (o0 :: os)).map
      (fun o => o.val_gt)).get? 2 =
      some (((List.drop ((o0 :: os).length / 2) (o0 :: os)).getD 2
        ⟨[], []⟩).val_gt) := by
    rw [List.get?_eq_getElem?, List.getElem?_map,
      List.getElem?_eq_getElem hlt, List.getD_eq_getElem?_getD,
      List.getElem?_eq_getElem hlt]
    rfl
  rw [hget]
  simp only [Option.some_bind, List.length_map, List.length_drop]

/-- C2: on a sweep of at least five layers (so that every index the code
uses exists), `layer_ensembling` keeps only the suffix of per-layer
outputs starting at index `len // 2`, stacks their variant-averaged
validation credences, averages that stack across the depth axis, and
scores the average with `calc_eval_results` in `full` mode — using as
ground truth the element at index 2 of the truncated ground-truth
sequence, and as class count the last dimension of the first layer's
credences. -/
theorem layer_ensembling_second_half_mean (ext : Externals)
    (outs : List LayerOutputRec) (tails : List (List LayerOutputRec))
    (hlen : tails.length = outs.length) (h5 : 5 ≤ outs.length)
    (o0 : LayerOutputRec) (m0 : List (List ℚ)) (r0 : List ℚ)
    (ho0 : outs.head? = some o0) (hm0 : o0.val_credences.head? = some m0)
    (hr0 : m0.head? = some r0) :
    layer_ensembling ext (List.zipWith (· :: ·) outs tails) =
      calc_eval_results2 ext
        (((outs.drop (outs.length / 2)).getD 2 ⟨[], []⟩).val_gt)
        (matSmul (1 / ((outs.length - outs.length / 2 : ℕ) : ℚ))
          (sumMats ((outs.drop (outs.length / 2)).map
            (fun o => meanDim1 o.val_credences))))
        "full" r0.length :=
  layer_ensembling_eq ext outs tails hlen h5 o0 m0 r0 ho0 hm0 hr0

/-- `calc_auroc` never fails in `full` mode. -/
theorem calc_auroc2_full_isSome (ext : Externals) (l : List (List ℚ))
    (y : List ℕ) (k : ℕ) : (calc_auroc2 ext l y "full" k).isSome := by
  rw [calc_auroc2, if_neg (by decide), if_pos (by decide)]
  by_cases hk : k = 2 <;> simp [hk]

/-- `calc_eval_results` never fails in `full` mode. -/
theorem calc_eval_results2_full_isSome (ext : Externals) (y : List ℕ)
    (l : List (List ℚ)) (k : ℕ) :
    (calc_eval_results2 ext y l "full" k).isSome := by
  rw [calc_eval_results2_eq]
  rcases h : calc_auroc2 ext l y "full" k with _ | a
  · have hs := calc_auroc2_full_isSome ext l y k
    rw [h] at hs
    simp at hs
  · simp

/-- C10: `layer_ensembling` indexes the post-halving ground-truth
sequence at position 2, so the call fails on every sweep of at most four
layers (the truncated suffix is shorter than 3, whatever the layer
outputs contain), and succeeds on every well-formed sweep of at least
five layers. -/
theorem layer_ensembling_requires_five_layers :
    (∀ (ext : Externals) (los : List (List LayerOutputRec)),
      los.length ≤ 4 → layer_ensembling ext los = none) ∧
    (∀ (ext : Externals) (outs : List LayerOutputRec)
      (tails : List (List LayerOutputRec)), tails.length = outs.length →
      5 ≤ outs.length →
      ∀ (o0 : LayerOutputRec) (m0 : List (List ℚ)) (r0 : List ℚ),
        outs.head? = some o0 → o0.val_credences.head? = some m0 →
        m0.head? = some r0 →
        (layer_ensembling ext (List.zipWith (· :: ·) outs tails)).isSome) := by
  constructor
  · intro ext los hlen
    rw [layer_ensembling]
    rcases hm : los.mapM (fun layer_output => do
        let e ← layer_output.head?
        pure (meanDim1 e.val_credences, e.val_gt)) with _ | pairs
    · rw [hm]
      rfl
    · have hplen : pairs.length = los.length := option_mapM_length _ los pairs hm
      rw [hm]
      simp only [Option.bind_eq_bind, Option.some_bind]
      rcases h0 : los.head? with _ | lo0
      · rfl
      simp only [Option.some_bind]
      rcases h1 : lo0.head? with _ | e0
      · rfl
      simp only [Option.some_bind]
      rcases h2 : e0.val_credences.head? with _ | m0
      · rfl
      simp only [Option.some_bind]
      rcases h3 : m0.head? with _ | r0
      · rfl
      simp only [Option.some_bind]
      have hget : (List.drop ((pairs.map Prod.snd).length / 2)
          (pairs.map Prod.snd)).get? 2 = none := by
        rw [List.get?_eq_getElem?, List.getElem?_eq_none]
        simp only [List.length_drop, List.length_map]
        omega
      rcases h4 : stackMean (List.drop ((pairs.map Prod.snd).length / 2)
          (pairs.map Prod.fst)) with _ | avg
      · rfl
      simp only [Option.some_bind]
      rw [hget]
      rfl
  · intro ext outs tails hlen h5 o0 m0 r0 ho0 hm0 hr0
    rw [layer_ensembling_eq ext outs tails hlen h5 o0 m0 r0 ho0 hm0 hr0]
    exact calc_eval_results2_full_isSome ext _ _ _

/-- Witness for C2 at a concrete five-layer sweep of identical
well-formed per-layer outputs. -/
theorem layer_ensembling_second_half_mean_witness :
    layer_ensembling extOne
        (List.zipWith (· :: ·) [loA, loA, loA, loA, loA]
          [[], [], [], [], []]) =
      calc_eval_results2 extOne
        ((([loA, loA, loA, loA, loA].drop
            ([loA, loA, loA, loA, loA].length / 2)).getD 2 ⟨[], []⟩).val_gt)
        (matSmul
          (1 / (([loA, loA, loA, loA, loA].length -
            [loA, loA, loA, loA, loA].length / 2 : ℕ) : ℚ))
          (sumMats (([loA, loA, loA, loA, loA].drop
              ([loA, loA, loA, loA, loA].length / 2)).map
            (fun o => meanDim1 o.val_credences))))
        "full" ([1, 2] : List ℚ).length :=
  layer_ensembling_second_half_mean extOne [loA, loA, loA, loA, loA]
    [[], [], [], [], []] rfl (by decide) loA [[1, 2], [3, 4]] [1, 2]
    rfl rfl rfl

/-- Witness for C10: a single-layer sweep fails, a five-layer sweep of
well-formed outputs succeeds. -/
theorem layer_ensembling_requires_five_layers_witness :
    layer_ensembling extOne [[loA]] = none ∧
      (layer_ensembling extOne
        (List.zipWith (· :: ·) [loA, loA, loA, loA, loA]
          [[], [], [], [], []])).isSome :=
  ⟨layer_ensembling_requires_five_layers.1 extOne [[loA]] (by decide),
    layer_ensembling_requires_five_layers.2 extOne [loA, loA, loA, loA, loA]
      [[], [], [], [], []] rfl (by decide) loA [[1, 2], [3, 4]] [1, 2]
      rfl rfl rfl⟩
